import Mathlib

/-!
Verification of the tuning-selection routine `find_optimal_values` from the
DataAssimilationBenchmarks plotting scripts
(`plt_smoother_rmse_spread_v_lag.py`,
`plt_smoother_rmse_spread_all_stats_4_pane_verus_shift.py`,
`plt_smoother_rmse_spread_all_stats_4_pane_verus_tanl.py`).

The scripts operate on three-dimensional numeric arrays of floating-point
values in which the only values that matter to the selection logic are NaN,
positive infinity and finite numbers.  We model a scalar as `PyF`
(NaN / +inf / a rational), a three-dimensional array as its shape together
with a total indexing function, and the HDF5 container as a partial map from
key strings to arrays.  Fallible steps (missing key, empty reduction axis,
out-of-range or mismatched indexing — all of which raise in numpy) are
modelled by `Option`.
-/

/-- A floating-point value as far as the scripts' logic is concerned:
NaN, positive infinity, or a finite value (modelled as a rational). -/
inductive PyF where
  | nan : PyF
  | inf : PyF
  | fin : ℚ → PyF
deriving DecidableEq

/-- `np.isnan` on a scalar. -/
def PyF.isnan : PyF → Bool
  | PyF.nan => true
  | _ => false

/-- The in-place update `tuned_rmse[tuned_rmse_nan] = np.inf` on one entry:
NaN entries become +inf, every other entry is unchanged. -/
def nanToInf : PyF → PyF
  | PyF.nan => PyF.inf
  | PyF.inf => PyF.inf
  | PyF.fin q => PyF.fin q

/-- Binary minimum with IEEE / `np.minimum` semantics on the values that can
occur here: NaN propagates, +inf is larger than every finite value. -/
def pmin : PyF → PyF → PyF
  | PyF.nan, _ => PyF.nan
  | PyF.inf, PyF.nan => PyF.nan
  | PyF.fin _, PyF.nan => PyF.nan
  | PyF.inf, PyF.inf => PyF.inf
  | PyF.inf, PyF.fin b => PyF.fin b
  | PyF.fin a, PyF.inf => PyF.fin a
  | PyF.fin a, PyF.fin b => PyF.fin (min a b)

/-- IEEE equality `==` on scalars: NaN compares unequal to everything
(including itself), +inf equals +inf, finite values compare numerically. -/
def beqPF : PyF → PyF → Bool
  | PyF.nan, _ => false
  | PyF.inf, PyF.nan => false
  | PyF.fin _, PyF.nan => false
  | PyF.inf, PyF.inf => true
  | PyF.inf, PyF.fin _ => false
  | PyF.fin _, PyF.inf => false
  | PyF.fin a, PyF.fin b => a == b

/-- A three-dimensional array: its shape `(d0, d1, d2)` and a total indexing
function (entries outside the shape are irrelevant junk). -/
structure Arr3 where
  d0 : ℕ
  d1 : ℕ
  d2 : ℕ
  val : ℕ → ℕ → ℕ → PyF

/-- A two-dimensional array, same conventions as `Arr3`. -/
structure Arr2 where
  d0 : ℕ
  d1 : ℕ
  val : ℕ → ℕ → PyF

/-- The opened HDF5 file / data container: a partial map from dataset names
to arrays; a missing key raises (`none`). -/
def Container : Type := String → Option Arr3

/-- The slice `A[i, :, k]` along axis 1, as a list. -/
def sliceList (A : Arr3) (i k : ℕ) : List PyF :=
  (List.range A.d1).map (fun m => A.val i m k)

/-- `np.min` of a list of scalars: reduction by `pmin`; raises (`none`) on an
empty list, exactly as `np.min` raises on an empty reduction axis. -/
def minList : List PyF → Option PyF
  | [] => none
  | x :: xs => some (xs.foldl pmin x)

/-- `np.min(A, axis=1)` at position `(i, k)`. -/
def minSlice (A : Arr3) (i k : ℕ) : Option PyF :=
  minList (sliceList A i k)

/-- The boolean mask `indx = tuned_rmse[i,:,j] == min_val`, represented as
the (increasing) list of indices at which the mask is true. -/
def maskList (tuned : Arr3) (i k : ℕ) (minv : PyF) : List ℕ :=
  (List.range tuned.d1).filter (fun m => beqPF (tuned.val i m k) minv)

/-- The array `tuned_rmse`: a fresh copy of the forecast-RMSE array with the
NaN entries replaced in place by +inf. -/
def tunedOf (fore : Arr3) : Arr3 :=
  { fore with val := fun i m k => nanToInf (fore.val i m k) }

/-- One iteration of the inner double loop: compute `min_val`, build the
boolean mask, fancy-index the statistic array with it, and take the first
element.  `none` models the numpy errors: empty reduction axis, an integer
index out of range or a boolean mask whose length mismatches axis 1 of the
statistic array, and broadcasting an empty selection into a cell. -/
def cellSelect (tuned statA : Arr3) (i k : ℕ) : Option PyF :=
  match minSlice tuned i k with
  | none => none
  | some minv =>
    if i < statA.d0 ∧ tuned.d1 = statA.d1 ∧ k < statA.d2 then
      match (maskList tuned i k minv).map (fun m => statA.val i m k) with
      | [] => none
      | v :: _ => some v
    else none

/-- The filled and transposed output array (`rmse_vals` or `spread_vals`):
`np.zeros` of shape `(d0, d2)` with every in-range cell assigned by the
double loop, then `np.transpose`, giving shape `(d2, d0)`.  If any cell's
computation raises, the whole call raises (`none`). -/
def allCells (tuned statA : Arr3) : Option Arr2 :=
  if ∀ i, i < tuned.d0 → ∀ k, k < tuned.d2 → (cellSelect tuned statA i k).isSome = true then
    some { d0 := tuned.d2, d1 := tuned.d0,
           val := fun k i => (cellSelect tuned statA i k).getD (PyF.fin 0) }
  else none

/-- `find_optimal_values(method, stat, data)` from
`plt_smoother_rmse_spread_v_lag.py`: reads the forecast-RMSE array and the
two companion statistic arrays from its `data` argument, replaces NaN by
+inf in a local copy of the forecast RMSE, minimises over axis 1, selects
the statistic values at the (first) minimising index for every cell, and
returns the two transposed result arrays. -/
def find_optimal_values (method stat : String) (data : Container) : Option (Arr2 × Arr2) :=
  let tuning_stat := "fore"
  match data (method ++ "_" ++ tuning_stat ++ "_rmse") with
  | none => none
  | some fore =>
    if (tunedOf fore).d1 = 0 then none
    else
      match data (method ++ "_" ++ stat ++ "_rmse"),
            data (method ++ "_" ++ stat ++ "_spread") with
      | some stat_rmse, some stat_spread =>
        match allCells (tunedOf fore) stat_rmse, allCells (tunedOf fore) stat_spread with
        | some rmse_vals, some spread_vals => some (rmse_vals, spread_vals)
        | some _, none => none
        | none, _ => none
      | some _, none => none
      | none, _ => none

/-- `find_optimal_values(method, stat, data)` from
`plt_smoother_rmse_spread_all_stats_4_pane_verus_shift.py`: identical body,
except that every dataset is read from the module-level file handle `f`
(here an explicit parameter) — the `data` argument is never consulted. -/
def find_optimal_values_shift (f : Container) (method stat : String) (data : Container) :
    Option (Arr2 × Arr2) :=
  let tuning_stat := "fore"
  match f (method ++ "_" ++ tuning_stat ++ "_rmse") with
  | none => none
  | some fore =>
    if (tunedOf fore).d1 = 0 then none
    else
      match f (method ++ "_" ++ stat ++ "_rmse"),
            f (method ++ "_" ++ stat ++ "_spread") with
      | some stat_rmse, some stat_spread =>
        match allCells (tunedOf fore) stat_rmse, allCells (tunedOf fore) stat_spread with
        | some rmse_vals, some spread_vals => some (rmse_vals, spread_vals)
        | some _, none => none
        | none, _ => none
      | some _, none => none
      | none, _ => none

/-- `find_optimal_values(method, stat, data)` from
`plt_smoother_rmse_spread_all_stats_4_pane_verus_tanl.py`: same as the
versus-shift version, reading the module-level file handle `f` and ignoring
`data`. -/
def find_optimal_values_tanl (f : Container) (method stat : String) (data : Container) :
    Option (Arr2 × Arr2) :=
  let tuning_stat := "fore"
  match f (method ++ "_" ++ tuning_stat ++ "_rmse") with
  | none => none
  | some fore =>
    if (tunedOf fore).d1 = 0 then none
    else
      match f (method ++ "_" ++ stat ++ "_rmse"),
            f (method ++ "_" ++ stat ++ "_spread") with
      | some stat_rmse, some stat_spread =>
        match allCells (tunedOf fore) stat_rmse, allCells (tunedOf fore) stat_spread with
        | some rmse_vals, some spread_vals => some (rmse_vals, spread_vals)
        | some _, none => none
        | none, _ => none
      | some _, none => none
      | none, _ => none

/-- State-passing version of the versus-lag `find_optimal_values`, threading
the container (the opened file's named arrays) through the call explicitly.
`np.array(data[...])` produces a fresh copy, so the in-place NaN replacement
(`tunedOf`) updates only the local copy and the container is handed back
exactly as received on every path. -/
def find_optimal_values_heap (method stat : String) (heap : Container) :
    Option (Arr2 × Arr2) × Container :=
  let tuning_stat := "fore"
  match heap (method ++ "_" ++ tuning_stat ++ "_rmse") with
  | none => (none, heap)
  | some fore =>
    if (tunedOf fore).d1 = 0 then (none, heap)
    else
      match heap (method ++ "_" ++ stat ++ "_rmse"),
            heap (method ++ "_" ++ stat ++ "_spread") with
      | some stat_rmse, some stat_spread =>
        match allCells (tunedOf fore) stat_rmse, allCells (tunedOf fore) stat_spread with
        | some rmse_vals, some spread_vals => (some (rmse_vals, spread_vals), heap)
        | some _, none => (none, heap)
        | none, _ => (none, heap)
      | some _, none => (none, heap)
      | none, _ => (none, heap)

/-- Concrete forecast-RMSE array for the worked example: a single
`(outer, lag)` cell whose tuning-axis slice is `[0.3, 0.1, NaN]`. -/
def exFore : Arr3 :=
  { d0 := 1, d1 := 3, d2 := 1,
    val := fun _ m _ =>
      if m = 0 then PyF.fin (mkRat 3 10) else if m = 1 then PyF.fin (mkRat 1 10) else PyF.nan }

/-- Companion statistic-RMSE array for the worked example: slice
`[0.5, 0.2, 0.9]`. -/
def exStatR : Arr3 :=
  { d0 := 1, d1 := 3, d2 := 1,
    val := fun _ m _ =>
      if m = 0 then PyF.fin (mkRat 1 2) else if m = 1 then PyF.fin (mkRat 1 5) else PyF.fin (mkRat 9 10) }

/-- Companion statistic-spread array for the worked example: slice
`[0.4, 0.3, 0.8]`. -/
def exStatS : Arr3 :=
  { d0 := 1, d1 := 3, d2 := 1,
    val := fun _ m _ =>
      if m = 0 then PyF.fin (mkRat 2 5) else if m = 1 then PyF.fin (mkRat 3 10) else PyF.fin (mkRat 4 5) }

/-- The worked-example container, holding the three datasets for method
`etks_classic` and statistic `post`. -/
def exC : Container := fun name =>
  if name = "etks_classic_fore_rmse" then some exFore
  else if name = "etks_classic_post_rmse" then some exStatR
  else if name = "etks_classic_post_spread" then some exStatS
  else none

/-- Forecast-RMSE array whose single slice is all-NaN: `[NaN, NaN]`. -/
def exForeNan : Arr3 :=
  { d0 := 1, d1 := 2, d2 := 1, val := fun _ _ _ => PyF.nan }

/-- Companion statistic-RMSE array for the all-NaN example: `[0.7, 0.9]`. -/
def exStatRNan : Arr3 :=
  { d0 := 1, d1 := 2, d2 := 1,
    val := fun _ m _ => if m = 0 then PyF.fin (mkRat 7 10) else PyF.fin (mkRat 9 10) }

/-- Companion statistic-spread array for the all-NaN example: `[0.6, 0.8]`. -/
def exStatSNan : Arr3 :=
  { d0 := 1, d1 := 2, d2 := 1,
    val := fun _ m _ => if m = 0 then PyF.fin (mkRat 3 5) else PyF.fin (mkRat 4 5) }

/-- Container for the all-NaN example. -/
def exCNan : Container := fun name =>
  if name = "etks_classic_fore_rmse" then some exForeNan
  else if name = "etks_classic_post_rmse" then some exStatRNan
  else if name = "etks_classic_post_spread" then some exStatSNan
  else none

/-- Forecast-RMSE array whose single slice is `[NaN, +inf]`: it contains a
non-NaN entry, but no finite one. -/
def exForeNI : Arr3 :=
  { d0 := 1, d1 := 2, d2 := 1,
    val := fun _ m _ => if m = 0 then PyF.nan else PyF.inf }

/-- Container for the `[NaN, +inf]` example, reusing the all-NaN example's
companion statistic arrays. -/
def exCNI : Container := fun name =>
  if name = "etks_classic_fore_rmse" then some exForeNI
  else if name = "etks_classic_post_rmse" then some exStatRNan
  else if name = "etks_classic_post_spread" then some exStatSNan
  else none

/-- The empty container: every lookup misses. -/
def emptyC : Container := fun _ => none

/-- Spec-side valuation of a forecast-RMSE entry: "missing/invalid forecast
RMSE entries are treated as positive infinity".  NaN (and +inf itself) map
to `⊤`, finite entries to their value. -/
def specNanVal : PyF → WithTop ℚ
  | PyF.nan => ⊤
  | PyF.inf => ⊤
  | PyF.fin q => (q : WithTop ℚ)

/-- Spec-side characterisation, following the spec's words, of "the first
index along axis 1 that minimizes the forecast RMSE with NaN entries treated
as positive infinity": `m` is in range, achieves the minimum, and no earlier
index achieves it. -/
def isFirstArgmin (fore : Arr3) (i k m : ℕ) : Prop :=
  m < fore.d1 ∧
  (∀ n, n < fore.d1 → specNanVal (fore.val i m k) ≤ specNanVal (fore.val i n k)) ∧
  (∀ n, n < m → specNanVal (fore.val i n k) ≠ specNanVal (fore.val i m k))

instance isFirstArgminDecidable (fore : Arr3) (i k m : ℕ) :
    Decidable (isFirstArgmin fore i k m) :=
  inferInstanceAs (Decidable (_ ∧ (∀ n, n < fore.d1 → _) ∧ (∀ n, n < m → _)))

lemma nanToInf_ne_nan (x : PyF) : nanToInf x ≠ PyF.nan := by
  cases x <;> simp [nanToInf]

lemma specNanVal_nanToInf (x : PyF) : specNanVal (nanToInf x) = specNanVal x := by
  cases x <;> simp [nanToInf, specNanVal]

lemma tunedOf_val (fore : Arr3) (i m k : ℕ) :
    (tunedOf fore).val i m k = nanToInf (fore.val i m k) := rfl

lemma tunedOf_d1 (fore : Arr3) : (tunedOf fore).d1 = fore.d1 := rfl

lemma pmin_eq_or (x y : PyF) : pmin x y = x ∨ pmin x y = y := by
  cases x with
  | nan => left; cases y <;> rfl
  | inf =>
    cases y with
    | nan => right; rfl
    | inf => left; rfl
    | fin b => right; rfl
  | fin a =>
    cases y with
    | nan => right; rfl
    | inf => left; rfl
    | fin b =>
      rcases le_total a b with h | h
      · left; simp [pmin, min_eq_left h]
      · right; simp [pmin, min_eq_right h]

lemma pmin_ne_nan (x y : PyF) (hx : x ≠ PyF.nan) (hy : y ≠ PyF.nan) :
    pmin x y ≠ PyF.nan := by
  cases x <;> cases y <;> simp_all [pmin]

lemma specNanVal_pmin_le_left (x y : PyF) (hy : y ≠ PyF.nan) :
    specNanVal (pmin x y) ≤ specNanVal x := by
  cases x <;> cases y <;> simp_all [pmin, specNanVal, min_le_left]

lemma specNanVal_pmin_le_right (x y : PyF) (hx : x ≠ PyF.nan) :
    specNanVal (pmin x y) ≤ specNanVal y := by
  cases x <;> cases y <;> simp_all [pmin, specNanVal, min_le_right]

lemma beqPF_iff (x y : PyF) (hx : x ≠ PyF.nan) (hy : y ≠ PyF.nan) :
    beqPF x y = true ↔ specNanVal x = specNanVal y := by
  cases x <;> cases y <;> simp_all [beqPF, specNanVal]

lemma foldl_pmin_mem (l : List PyF) (x : PyF) : l.foldl pmin x ∈ x :: l := by
  induction l generalizing x with
  | nil => simp
  | cons y t ih =>
    simp only [List.foldl_cons]
    rcases List.mem_cons.mp (ih (pmin x y)) with h2 | h2
    · rcases pmin_eq_or x y with h1 | h1
      · rw [h2, h1]; simp
      · rw [h2, h1]; simp
    · simp [h2]

lemma foldl_pmin_ne_nan (l : List PyF) (x : PyF) (hx : x ≠ PyF.nan)
    (hl : ∀ y ∈ l, y ≠ PyF.nan) : l.foldl pmin x ≠ PyF.nan := by
  induction l generalizing x with
  | nil => simpa
  | cons y t ih =>
    simp only [List.foldl_cons]
    exact ih (pmin x y) (pmin_ne_nan x y hx (hl y (by simp))) (fun z hz => hl z (by simp [hz]))

lemma foldl_pmin_le (l : List PyF) (x : PyF) (hx : x ≠ PyF.nan)
    (hl : ∀ y ∈ l, y ≠ PyF.nan) :
    ∀ y ∈ x :: l, specNanVal (l.foldl pmin x) ≤ specNanVal y := by
  induction l generalizing x with
  | nil => simp
  | cons z t ih =>
    have hz : z ≠ PyF.nan := hl z (by simp)
    have ht : ∀ y ∈ t, y ≠ PyF.nan := fun y hy => hl y (by simp [hy])
    have hxz : pmin x z ≠ PyF.nan := pmin_ne_nan x z hx hz
    have hfold : ∀ y ∈ pmin x z :: t, specNanVal (t.foldl pmin (pmin x z)) ≤ specNanVal y :=
      ih (pmin x z) hxz ht
    have hmin : specNanVal (t.foldl pmin (pmin x z)) ≤ specNanVal (pmin x z) :=
      hfold (pmin x z) (by simp)
    intro y hy
    simp only [List.foldl_cons]
    rcases List.mem_cons.mp hy with h1 | h1
    · rw [h1]; exact le_trans hmin (specNanVal_pmin_le_left x z hz)
    · rcases List.mem_cons.mp h1 with h2 | h2
      · rw [h2]; exact le_trans hmin (specNanVal_pmin_le_right x z hx)
      · exact hfold y (by simp [h2])

lemma filter_range_head_eq (p : ℕ → Bool) (n m : ℕ) (hm : m < n) (hp : p m = true)
    (hmin : ∀ j, j < m → p j = false) :
    ((List.range n).filter p).head? = some m := by
  induction n with
  | zero => exact absurd hm (Nat.not_lt_zero m)
  | succ n ih =>
    rw [List.range_succ, List.filter_append]
    rcases Nat.lt_succ_iff_lt_or_eq.mp hm with h | h
    · rw [List.head?_append, ih h]; rfl
    · have hempty : (List.range n).filter p = [] := by
        rw [List.filter_eq_nil_iff]
        intro a ha
        simp only [List.mem_range] at ha
        simp [hmin a (h ▸ ha)]
      subst h
      simp [hempty, hp]

lemma filter_range_head_inv (p : ℕ → Bool) (n m : ℕ)
    (h : ((List.range n).filter p).head? = some m) :
    m < n ∧ p m = true ∧ ∀ j, j < m → p j = false := by
  have hmem : m ∈ (List.range n).filter p := List.mem_of_mem_head? (by simp [h])
  have hmr := List.mem_filter.mp hmem
  have hmn : m < n := List.mem_range.mp hmr.1
  refine ⟨hmn, hmr.2, ?_⟩
  intro j hj
  by_contra hcon
  have hpj : p j = true := by simpa using hcon
  have hex : ∃ a, p a = true := ⟨j, hpj⟩
  have hfirst : ((List.range n).filter p).head? = some (Nat.find hex) := by
    refine filter_range_head_eq p n (Nat.find hex) ?_ (Nat.find_spec hex) ?_
    · exact lt_of_le_of_lt (Nat.find_min' hex hpj) (lt_trans hj hmn)
    · intro a ha
      simpa using Nat.find_min hex ha
  rw [h] at hfirst
  have : m ≤ j := (Option.some_inj.mp hfirst) ▸ Nat.find_min' hex hpj
  exact absurd hj (not_lt.mpr this)

lemma sliceList_tunedOf_ne_nan (fore : Arr3) (i k : ℕ) :
    ∀ y ∈ sliceList (tunedOf fore) i k, y ≠ PyF.nan := by
  intro y hy
  rcases List.mem_map.mp hy with ⟨m, _, hm⟩
  rw [← hm]
  exact nanToInf_ne_nan _

lemma minSlice_tunedOf (fore : Arr3) (i k : ℕ) (h : 0 < fore.d1) :
    ∃ v, minSlice (tunedOf fore) i k = some v ∧ v ≠ PyF.nan ∧
      (∃ m0, m0 < fore.d1 ∧ (tunedOf fore).val i m0 k = v) ∧
      (∀ n, n < fore.d1 → specNanVal v ≤ specNanVal (fore.val i n k)) := by
  have hne : sliceList (tunedOf fore) i k ≠ [] := by
    simp [sliceList, tunedOf, List.range_eq_nil]
    omega
  rcases List.exists_cons_of_ne_nil hne with ⟨x, xs, hxs⟩
  have hnn := sliceList_tunedOf_ne_nan fore i k
  rw [hxs] at hnn
  have hx : x ≠ PyF.nan := hnn x (by simp)
  have hxs2 : ∀ y ∈ xs, y ≠ PyF.nan := fun y hy => hnn y (by simp [hy])
  refine ⟨xs.foldl pmin x, ?_, ?_, ?_, ?_⟩
  · rw [minSlice, hxs]; rfl
  · exact foldl_pmin_ne_nan xs x hx hxs2
  · have hmem : xs.foldl pmin x ∈ sliceList (tunedOf fore) i k := by
      rw [hxs]; exact foldl_pmin_mem xs x
    rcases List.mem_map.mp hmem with ⟨m0, hm0, hval⟩
    exact ⟨m0, List.mem_range.mp hm0, hval⟩
  · intro n hn
    have hmem : (tunedOf fore).val i n k ∈ sliceList (tunedOf fore) i k := by
      exact List.mem_map.mpr ⟨n, List.mem_range.mpr hn, rfl⟩
    rw [hxs] at hmem
    calc specNanVal (xs.foldl pmin x) ≤ specNanVal ((tunedOf fore).val i n k) :=
          foldl_pmin_le xs x hx hxs2 _ hmem
      _ = specNanVal (fore.val i n k) := by rw [tunedOf_val, specNanVal_nanToInf]

lemma exists_isFirstArgmin (fore : Arr3) (i k : ℕ) (h : 0 < fore.d1) :
    ∃ m, isFirstArgmin fore i k m := by
  rcases minSlice_tunedOf fore i k h with ⟨v, _, _, ⟨m0, hm0, hm0v⟩, hbound⟩
  have hP : ∃ n, n < fore.d1 ∧ specNanVal (fore.val i n k) = specNanVal v :=
    ⟨m0, hm0, by rw [← hm0v, tunedOf_val, specNanVal_nanToInf]⟩
  refine ⟨Nat.find hP, (Nat.find_spec hP).1, ?_, ?_⟩
  · intro n hn
    rw [(Nat.find_spec hP).2]
    exact hbound n hn
  · intro n hn hcon
    have : n < fore.d1 ∧ specNanVal (fore.val i n k) = specNanVal v :=
      ⟨lt_trans hn (Nat.find_spec hP).1, hcon.trans (Nat.find_spec hP).2⟩
    exact Nat.find_min hP hn this

lemma maskList_head_of_isFirstArgmin (fore : Arr3) (i k m : ℕ) (v : PyF)
    (hv : minSlice (tunedOf fore) i k = some v) (hm : isFirstArgmin fore i k m) :
    (maskList (tunedOf fore) i k v).head? = some m := by
  obtain ⟨hmlt, hle, hfirst⟩ := hm
  rcases minSlice_tunedOf fore i k (lt_of_le_of_lt (Nat.zero_le m) hmlt) with
    ⟨v2, hv2, hv2nan, ⟨m0, hm0, hm0v⟩, hbound⟩
  rw [hv] at hv2
  obtain rfl : v = v2 := Option.some_inj.mp hv2
  have hspec : specNanVal (fore.val i m k) = specNanVal v := by
    apply le_antisymm
    · calc specNanVal (fore.val i m k) ≤ specNanVal (fore.val i m0 k) := hle m0 hm0
        _ = specNanVal v := by rw [← hm0v, tunedOf_val, specNanVal_nanToInf]
    · exact hbound m hmlt
  apply filter_range_head_eq
  · exact hmlt
  · rw [tunedOf_val, beqPF_iff _ _ (nanToInf_ne_nan _) hv2nan, specNanVal_nanToInf]
    exact hspec
  · intro j hj
    have hjlt : j < fore.d1 := lt_trans hj hmlt
    by_contra hcon
    have hbeq : beqPF ((tunedOf fore).val i j k) v = true := by simpa using hcon
    rw [tunedOf_val, beqPF_iff _ _ (nanToInf_ne_nan _) hv2nan, specNanVal_nanToInf] at hbeq
    exact hfirst j hj (hbeq.trans hspec.symm)

lemma isFirstArgmin_of_maskList_head (fore : Arr3) (i k m : ℕ) (v : PyF)
    (hv : minSlice (tunedOf fore) i k = some v)
    (hm : (maskList (tunedOf fore) i k v).head? = some m) :
    isFirstArgmin fore i k m := by
  have hd1 : 0 < fore.d1 := by
    by_contra hcon
    have h0 : fore.d1 = 0 := by omega
    rw [minSlice, sliceList] at hv
    have : (tunedOf fore).d1 = 0 := h0
    rw [this] at hv
    simp [minList] at hv
  rcases minSlice_tunedOf fore i k hd1 with ⟨v2, hv2, hv2nan, ⟨m0, hm0, hm0v⟩, hbound⟩
  rw [hv] at hv2
  obtain rfl : v = v2 := Option.some_inj.mp hv2
  obtain ⟨hmlt, hbeq, hfalse⟩ := filter_range_head_inv _ _ _ hm
  rw [tunedOf_val, beqPF_iff _ _ (nanToInf_ne_nan _) hv2nan, specNanVal_nanToInf] at hbeq
  refine ⟨hmlt, ?_, ?_⟩
  · intro n hn
    rw [hbeq]
    exact hbound n hn
  · intro n hn hcon
    have hbeqn : beqPF ((tunedOf fore).val i n k) v = true := by
      rw [tunedOf_val, beqPF_iff _ _ (nanToInf_ne_nan _) hv2nan, specNanVal_nanToInf]
      exact hcon.trans hbeq
    have := hfalse n hn
    rw [this] at hbeqn
    exact Bool.false_ne_true hbeqn

lemma cellSelect_eq (fore statA : Arr3) (i k m : ℕ)
    (hA0 : i < statA.d0) (hA1 : statA.d1 = fore.d1) (hA2 : k < statA.d2)
    (hm : isFirstArgmin fore i k m) :
    cellSelect (tunedOf fore) statA i k = some (statA.val i m k) := by
  have hd1 : 0 < fore.d1 := lt_of_le_of_lt (Nat.zero_le m) hm.1
  rcases minSlice_tunedOf fore i k hd1 with ⟨v, hv, _, _, _⟩
  have hhead : (maskList (tunedOf fore) i k v).head? = some m :=
    maskList_head_of_isFirstArgmin fore i k m v hv hm
  rcases List.exists_cons_of_ne_nil (l := maskList (tunedOf fore) i k v)
    (by intro hnil; rw [hnil] at hhead; exact Option.noConfusion hhead) with ⟨a, t, hat⟩
  rw [hat] at hhead
  obtain rfl : a = m := Option.some_inj.mp hhead
  have hcond : i < statA.d0 ∧ (tunedOf fore).d1 = statA.d1 ∧ k < statA.d2 :=
    ⟨hA0, by rw [tunedOf_d1, hA1], hA2⟩
  simp only [cellSelect, hv, hat, List.map_cons, if_pos hcond]

lemma allCells_tunedOf_eq (fore statA : Arr3)
    (hA0 : statA.d0 = fore.d0) (hA1 : statA.d1 = fore.d1) (hA2 : statA.d2 = fore.d2)
    (hd1 : 0 < fore.d1) :
    ∃ arr, allCells (tunedOf fore) statA = some arr ∧ arr.d0 = fore.d2 ∧ arr.d1 = fore.d0 ∧
      ∀ i k m, i < fore.d0 → k < fore.d2 → isFirstArgmin fore i k m →
        arr.val k i = statA.val i m k := by
  have hcell : ∀ i k, i < fore.d0 → k < fore.d2 →
      ∃ m, isFirstArgmin fore i k m ∧
        cellSelect (tunedOf fore) statA i k = some (statA.val i m k) := by
    intro i k hi hk
    rcases exists_isFirstArgmin fore i k hd1 with ⟨m, hm⟩
    exact ⟨m, hm, cellSelect_eq fore statA i k m (hA0 ▸ hi) hA1 (hA2 ▸ hk) hm⟩
  have hguard : ∀ i, i < (tunedOf fore).d0 → ∀ k, k < (tunedOf fore).d2 →
      (cellSelect (tunedOf fore) statA i k).isSome = true := by
    intro i hi k hk
    rcases hcell i k hi hk with ⟨m, _, heq⟩
    rw [heq]
    rfl
  refine ⟨{ d0 := (tunedOf fore).d2, d1 := (tunedOf fore).d0,
            val := fun k i => (cellSelect (tunedOf fore) statA i k).getD (PyF.fin 0) },
          ?_, rfl, rfl, ?_⟩
  · rw [allCells, if_pos hguard]
  · intro i k m hi hk hm
    have := cellSelect_eq fore statA i k m (hA0 ▸ hi) hA1 (hA2 ▸ hk) hm
    simp only [this]
    rfl

lemma find_optimal_values_spec (data : Container) (method stat : String)
    (fore statR statS : Arr3)
    (hf : data (method ++ "_" ++ "fore" ++ "_rmse") = some fore)
    (hr : data (method ++ "_" ++ stat ++ "_rmse") = some statR)
    (hs : data (method ++ "_" ++ stat ++ "_spread") = some statS)
    (hR0 : statR.d0 = fore.d0) (hR1 : statR.d1 = fore.d1) (hR2 : statR.d2 = fore.d2)
    (hS0 : statS.d0 = fore.d0) (hS1 : statS.d1 = fore.d1) (hS2 : statS.d2 = fore.d2)
    (hd1 : 0 < fore.d1) :
    ∃ r s, find_optimal_values method stat data = some (r, s) ∧
      r.d0 = fore.d2 ∧ r.d1 = fore.d0 ∧ s.d0 = fore.d2 ∧ s.d1 = fore.d0 ∧
      ∀ i k m, i < fore.d0 → k < fore.d2 → isFirstArgmin fore i k m →
        r.val k i = statR.val i m k ∧ s.val k i = statS.val i m k := by
  rcases allCells_tunedOf_eq fore statR hR0 hR1 hR2 hd1 with ⟨r, hrEq, hr0, hr1, hrVal⟩
  rcases allCells_tunedOf_eq fore statS hS0 hS1 hS2 hd1 with ⟨s, hsEq, hs0, hs1, hsVal⟩
  refine ⟨r, s, ?_, hr0, hr1, hs0, hs1,
    fun i k m hi hk hm => ⟨hrVal i k m hi hk hm, hsVal i k m hi hk hm⟩⟩
  simp only [find_optimal_values, hf, hr, hs, hrEq, hsEq]
  rw [if_neg (by rw [tunedOf_d1]; omega)]

lemma allCells_some_dims (tuned statA : Arr3) (arr : Arr2)
    (h : allCells tuned statA = some arr) : arr.d0 = tuned.d2 ∧ arr.d1 = tuned.d0 := by
  rw [allCells] at h
  by_cases hc : ∀ i, i < tuned.d0 → ∀ k, k < tuned.d2 →
      (cellSelect tuned statA i k).isSome = true
  · rw [if_pos hc] at h
    obtain rfl := Option.some_inj.mp h
    exact ⟨rfl, rfl⟩
  · rw [if_neg hc] at h
    exact Option.noConfusion h

lemma find_optimal_values_some_inv (data : Container) (method stat : String)
    (fore : Arr3) (r s : Arr2)
    (hf : data (method ++ "_" ++ "fore" ++ "_rmse") = some fore)
    (h : find_optimal_values method stat data = some (r, s)) :
    r.d0 = fore.d2 ∧ r.d1 = fore.d0 ∧ s.d0 = fore.d2 ∧ s.d1 = fore.d0 := by
  simp only [find_optimal_values, hf] at h
  by_cases h0 : (tunedOf fore).d1 = 0
  · rw [if_pos h0] at h
    exact Option.noConfusion h
  rw [if_neg h0] at h
  cases h1 : data (method ++ "_" ++ stat ++ "_rmse") with
  | none => simp only [h1] at h; exact Option.noConfusion h
  | some statR =>
    cases h2 : data (method ++ "_" ++ stat ++ "_spread") with
    | none => simp only [h1, h2] at h; exact Option.noConfusion h
    | some statS =>
      simp only [h1, h2] at h
      cases h3 : allCells (tunedOf fore) statR with
      | none => simp only [h3] at h; exact Option.noConfusion h
      | some arrR =>
        cases h4 : allCells (tunedOf fore) statS with
        | none => simp only [h3, h4] at h; exact Option.noConfusion h
        | some arrS =>
          simp only [h3, h4, Option.some_inj] at h
          obtain ⟨rfl, rfl⟩ := Prod.mk.injEq arrR arrS r s ▸ h
          obtain ⟨ha, hb⟩ := allCells_some_dims _ _ _ h3
          obtain ⟨hc, hd⟩ := allCells_some_dims _ _ _ h4
          exact ⟨ha, hb, hc, hd⟩

/-- C1: for a container holding the forecast RMSE and companion statistic
arrays of equal shape `(d0, d1, d2)` with `d1 ≥ 1`, and a cell `(i, k)`
whose forecast slice along axis 1 has a non-NaN entry, `find_optimal_values`
returns arrays whose entry at `(k, i)` is the statistic RMSE (respectively
spread) value at `(i, m, k)`, where `m` is the first index along axis 1
minimising the forecast RMSE with NaN treated as positive infinity — ties
are broken towards the smallest index. -/
theorem C1_first_argmin_selection (data : Container) (method stat : String)
    (fore statR statS : Arr3) (i k m : ℕ)
    (hf : data (method ++ "_" ++ "fore" ++ "_rmse") = some fore)
    (hr : data (method ++ "_" ++ stat ++ "_rmse") = some statR)
    (hs : data (method ++ "_" ++ stat ++ "_spread") = some statS)
    (hR0 : statR.d0 = fore.d0) (hR1 : statR.d1 = fore.d1) (hR2 : statR.d2 = fore.d2)
    (hS0 : statS.d0 = fore.d0) (hS1 : statS.d1 = fore.d1) (hS2 : statS.d2 = fore.d2)
    (hd1 : 1 ≤ fore.d1) (hi : i < fore.d0) (hk : k < fore.d2)
    (_hvalid : ∃ n, n < fore.d1 ∧ fore.val i n k ≠ PyF.nan)
    (hm : isFirstArgmin fore i k m) :
    ∃ r s, find_optimal_values method stat data = some (r, s) ∧
      r.val k i = statR.val i m k ∧ s.val k i = statS.val i m k := by
  rcases find_optimal_values_spec data method stat fore statR statS hf hr hs
    hR0 hR1 hR2 hS0 hS1 hS2 hd1 with ⟨r, s, hfind, _, _, _, _, hval⟩
  exact ⟨r, s, hfind, (hval i k m hi hk hm).1, (hval i k m hi hk hm).2⟩

/-- Witness for C1 at the worked example: forecast slice `[0.3, 0.1, NaN]`,
first argmin index 1, statistic values `0.2` and `0.3` selected. -/
theorem C1_first_argmin_selection_witness :
    (exC ("etks_classic" ++ "_" ++ "fore" ++ "_rmse") = some exFore ∧
     exC ("etks_classic" ++ "_" ++ "post" ++ "_rmse") = some exStatR ∧
     exC ("etks_classic" ++ "_" ++ "post" ++ "_spread") = some exStatS ∧
     1 ≤ exFore.d1 ∧ 0 < exFore.d0 ∧ 0 < exFore.d2 ∧
     (∃ n, n < exFore.d1 ∧ exFore.val 0 n 0 ≠ PyF.nan) ∧
     isFirstArgmin exFore 0 0 1) ∧
    ∃ r s, find_optimal_values "etks_classic" "post" exC = some (r, s) ∧
      r.val 0 0 = exStatR.val 0 1 0 ∧ s.val 0 0 = exStatS.val 0 1 0 :=
  ⟨⟨rfl, rfl, rfl, by decide, by decide, by decide, ⟨0, by decide, by decide⟩, by decide⟩,
   C1_first_argmin_selection exC "etks_classic" "post" exFore exStatR exStatS 0 0 1
     rfl rfl rfl rfl rfl rfl rfl rfl rfl (by decide) (by decide) (by decide)
     ⟨0, by decide, by decide⟩ (by decide)⟩

/-- C2 counterexample: on a container whose forecast slice is all-NaN,
`find_optimal_values` does not raise — it returns a result pair whose cell
holds the statistic values at inner index 0 (`0.7` and `0.6`), contradicting
the claim that an error is reported instead of returning a result. -/
theorem C2_all_nan_counterexample :
    (∀ n, n < exForeNan.d1 → exForeNan.val 0 n 0 = PyF.nan) ∧
    ∃ r s, find_optimal_values "etks_classic" "post" exCNan = some (r, s) ∧
      r.val 0 0 = PyF.fin (mkRat 7 10) ∧ s.val 0 0 = PyF.fin (mkRat 3 5) :=
  ⟨by decide, _, _, rfl, by decide, by decide⟩

/-- C2 (amended): when every forecast RMSE entry of some cell's slice is
NaN, `find_optimal_values` does not raise or report an error: with agreeing
shapes and a non-empty tuning axis it returns a result pair normally (the
error-reporting behaviour the spec asks for is a requirement on
reimplementations only, not a property of this code). -/
theorem C2_all_nan_returns_normally (data : Container) (method stat : String)
    (fore statR statS : Arr3) (i k : ℕ)
    (hf : data (method ++ "_" ++ "fore" ++ "_rmse") = some fore)
    (hr : data (method ++ "_" ++ stat ++ "_rmse") = some statR)
    (hs : data (method ++ "_" ++ stat ++ "_spread") = some statS)
    (hR0 : statR.d0 = fore.d0) (hR1 : statR.d1 = fore.d1) (hR2 : statR.d2 = fore.d2)
    (hS0 : statS.d0 = fore.d0) (hS1 : statS.d1 = fore.d1) (hS2 : statS.d2 = fore.d2)
    (hd1 : 0 < fore.d1) (_hi : i < fore.d0) (_hk : k < fore.d2)
    (_hnan : ∀ n, n < fore.d1 → fore.val i n k = PyF.nan) :
    ∃ r s, find_optimal_values method stat data = some (r, s) := by
  rcases find_optimal_values_spec data method stat fore statR statS hf hr hs
    hR0 hR1 hR2 hS0 hS1 hS2 hd1 with ⟨r, s, hfind, _⟩
  exact ⟨r, s, hfind⟩

/-- Witness for the amended C2 at the all-NaN example container. -/
theorem C2_all_nan_returns_normally_witness :
    (exCNan ("etks_classic" ++ "_" ++ "fore" ++ "_rmse") = some exForeNan ∧
     0 < exForeNan.d1 ∧ 0 < exForeNan.d0 ∧ 0 < exForeNan.d2 ∧
     (∀ n, n < exForeNan.d1 → exForeNan.val 0 n 0 = PyF.nan)) ∧
    ∃ r s, find_optimal_values "etks_classic" "post" exCNan = some (r, s) :=
  ⟨⟨rfl, by decide, by decide, by decide, by decide⟩,
   C2_all_nan_returns_normally exCNan "etks_classic" "post" exForeNan exStatRNan exStatSNan
     0 0 rfl rfl rfl rfl rfl rfl rfl rfl rfl (by decide) (by decide) (by decide) (by decide)⟩

/-- C3 counterexample: the forecast slice `[NaN, +inf]` contains a non-NaN
entry, yet the selected tuning index is 0 — the index whose forecast entry
was NaN (the sentinel replaced it and ties with the genuine `+inf` at index
1, and the first matching index wins). -/
theorem C3_nan_index_counterexample :
    (∃ n, n < exForeNI.d1 ∧ exForeNI.val 0 n 0 ≠ PyF.nan) ∧
    (minSlice (tunedOf exForeNI) 0 0).bind
      (fun v => (maskList (tunedOf exForeNI) 0 0 v).head?) = some 0 ∧
    exForeNI.val 0 0 0 = PyF.nan ∧
    ∃ r s, find_optimal_values "etks_classic" "post" exCNI = some (r, s) ∧
      r.val 0 0 = exStatRNan.val 0 0 0 :=
  ⟨⟨1, by decide, by decide⟩, by decide, rfl, _, _, rfl, by decide⟩

/-- C3 (amended): if the forecast slice of a cell contains at least one
finite (non-NaN, non-infinite) entry, then the tuning index selected by the
mask-and-first-match step is never an index whose forecast entry was NaN;
only when all entries of the slice are invalid (NaN or infinite) can a
sentinel entry be the minimum. -/
theorem C3_finite_entry_never_nan_index (fore : Arr3) (i k m : ℕ) (v : PyF)
    (hv : minSlice (tunedOf fore) i k = some v)
    (hm : (maskList (tunedOf fore) i k v).head? = some m)
    (hfin : ∃ n, n < fore.d1 ∧ ∃ q, fore.val i n k = PyF.fin q) :
    fore.val i m k ≠ PyF.nan := by
  have hfa := isFirstArgmin_of_maskList_head fore i k m v hv hm
  rcases hfin with ⟨n, hn, q, hq⟩
  have hle := hfa.2.1 n hn
  rw [hq] at hle
  intro hcon
  rw [hcon] at hle
  simp [specNanVal] at hle

/-- Witness for the amended C3 at the worked example: slice `[0.3, 0.1, NaN]`
has finite entries, the selected index 1 is not a NaN index. -/
theorem C3_finite_entry_never_nan_index_witness :
    (minSlice (tunedOf exFore) 0 0 = some (PyF.fin (mkRat 1 10)) ∧
     (maskList (tunedOf exFore) 0 0 (PyF.fin (mkRat 1 10))).head? = some 1 ∧
     (∃ n, n < exFore.d1 ∧ ∃ q, exFore.val 0 n 0 = PyF.fin q)) ∧
    exFore.val 0 1 0 ≠ PyF.nan :=
  ⟨⟨by decide, by decide, ⟨0, by decide, mkRat 3 10, by decide⟩⟩,
   C3_finite_entry_never_nan_index exFore 0 0 1 (PyF.fin (mkRat 1 10))
     (by decide) (by decide) ⟨0, by decide, mkRat 3 10, by decide⟩⟩

/-- C4: whenever `find_optimal_values` succeeds on a container whose
forecast-RMSE dataset is the array `fore` of shape `(d0, d1, d2)`, both
returned arrays have shape `(d2, d0)` — the transpose of the `(outer, lag)`
shape obtained by reducing over the inner axis. -/
theorem C4_output_shapes (data : Container) (method stat : String)
    (fore : Arr3) (r s : Arr2)
    (hf : data (method ++ "_" ++ "fore" ++ "_rmse") = some fore)
    (hfind : find_optimal_values method stat data = some (r, s)) :
    r.d0 = fore.d2 ∧ r.d1 = fore.d0 ∧ s.d0 = fore.d2 ∧ s.d1 = fore.d0 :=
  find_optimal_values_some_inv data method stat fore r s hf hfind

/-- Witness for C4 at the worked example container. -/
theorem C4_output_shapes_witness :
    ∃ r s, find_optimal_values "etks_classic" "post" exC = some (r, s) ∧
      exC ("etks_classic" ++ "_" ++ "fore" ++ "_rmse") = some exFore ∧
      r.d0 = exFore.d2 ∧ r.d1 = exFore.d0 ∧ s.d0 = exFore.d2 ∧ s.d1 = exFore.d0 := by
  obtain ⟨h1, h2, h3, h4⟩ := C4_output_shapes exC "etks_classic" "post" exFore _ _ rfl rfl
  exact ⟨_, _, rfl, rfl, h1, h2, h3, h4⟩

/-- C5: on the concrete input whose forecast slice is `[0.3, 0.1, NaN]` and
whose statistic RMSE slice is `[0.5, 0.2, 0.9]`, the selected inner index is
1 and the output RMSE value at that cell is `0.2`. -/
theorem C5_worked_example :
    (minSlice (tunedOf exFore) 0 0).bind
      (fun v => (maskList (tunedOf exFore) 0 0 v).head?) = some 1 ∧
    ∃ r s, find_optimal_values "etks_classic" "post" exC = some (r, s) ∧
      r.val 0 0 = PyF.fin (mkRat 1 5) :=
  ⟨by decide, _, _, rfl, by decide⟩

/-- C6: `find_optimal_values` leaves every array stored in the container
unchanged — the state-passing embedding hands the container back exactly as
received on every path (the NaN replacement acts only on the local copy made
by `np.array`), and its result agrees with the pure function. -/
theorem C6_no_container_mutation (method stat : String) (heap : Container) :
    (find_optimal_values_heap method stat heap).2 = heap ∧
    (find_optimal_values_heap method stat heap).1 = find_optimal_values method stat heap := by
  cases hk : heap (method ++ "_" ++ "fore" ++ "_rmse") with
  | none =>
    simp only [find_optimal_values_heap, find_optimal_values, hk]
    exact ⟨by trivial, by trivial⟩
  | some fore =>
    simp only [find_optimal_values_heap, find_optimal_values, hk]
    by_cases h0 : (tunedOf fore).d1 = 0
    · rw [if_pos h0, if_pos h0]
      exact ⟨by trivial, by trivial⟩
    · rw [if_neg h0, if_neg h0]
      cases h1 : heap (method ++ "_" ++ stat ++ "_rmse") with
      | none => simp only [h1]; exact ⟨by trivial, by trivial⟩
      | some statR =>
        cases h2 : heap (method ++ "_" ++ stat ++ "_spread") with
        | none => simp only [h1, h2]; exact ⟨by trivial, by trivial⟩
        | some statS =>
          simp only [h1, h2]
          cases h3 : allCells (tunedOf fore) statR with
          | none => simp only [h3]; exact ⟨by trivial, by trivial⟩
          | some arrR =>
            cases h4 : allCells (tunedOf fore) statS with
            | none => simp only [h3, h4]; exact ⟨by trivial, by trivial⟩
            | some arrS => simp only [h3, h4]; exact ⟨by trivial, by trivial⟩

/-- C7: when the container lacks the forecast-RMSE key, the statistic RMSE
key, or the statistic spread key, `find_optimal_values` fails with an
uncaught error (modelled as `none`) — it never returns a result on a
missing key. -/
theorem C7_missing_key_errors (data : Container) (method stat : String)
    (h : data (method ++ "_" ++ "fore" ++ "_rmse") = none ∨
         data (method ++ "_" ++ stat ++ "_rmse") = none ∨
         data (method ++ "_" ++ stat ++ "_spread") = none) :
    find_optimal_values method stat data = none := by
  rcases h with h | h | h
  · simp only [find_optimal_values, h]
  · cases hk : data (method ++ "_" ++ "fore" ++ "_rmse") with
    | none => simp only [find_optimal_values, hk]
    | some fore =>
      simp only [find_optimal_values, hk, h]
      by_cases h0 : (tunedOf fore).d1 = 0
      · rw [if_pos h0]
      · rw [if_neg h0]
  · cases hk : data (method ++ "_" ++ "fore" ++ "_rmse") with
    | none => simp only [find_optimal_values, hk]
    | some fore =>
      simp only [find_optimal_values, hk, h]
      by_cases h0 : (tunedOf fore).d1 = 0
      · rw [if_pos h0]
      · rw [if_neg h0]
        cases h1 : data (method ++ "_" ++ stat ++ "_rmse") <;> simp only [h1]

/-- Witness for C7 at the empty container. -/
theorem C7_missing_key_errors_witness :
    (emptyC ("etks_classic" ++ "_" ++ "fore" ++ "_rmse") = none ∨
     emptyC ("etks_classic" ++ "_" ++ "post" ++ "_rmse") = none ∨
     emptyC ("etks_classic" ++ "_" ++ "post" ++ "_spread") = none) ∧
    find_optimal_values "etks_classic" "post" emptyC = none :=
  ⟨Or.inl rfl, C7_missing_key_errors emptyC "etks_classic" "post" (Or.inl rfl)⟩

/-- C8: `find_optimal_values` is deterministic — equal input containers with
equal method and statistic names give equal results. -/
theorem C8_deterministic (method stat : String) (data1 data2 : Container)
    (h : data1 = data2) :
    find_optimal_values method stat data1 = find_optimal_values method stat data2 := by
  rw [h]

/-- Witness for C8 at the worked example container. -/
theorem C8_deterministic_witness :
    exC = exC ∧
    find_optimal_values "etks_classic" "post" exC =
      find_optimal_values "etks_classic" "post" exC :=
  ⟨rfl, C8_deterministic "etks_classic" "post" exC exC rfl⟩

/-- C9 (implicit): with agreeing shapes and a non-empty tuning axis, when
every forecast RMSE entry of the `(i, k)` slice is NaN, `find_optimal_values`
returns normally and the output values at that cell are the statistic RMSE
and spread values at inner index 0 — every masked entry equals the infinite
minimum and the first matching index is taken. -/
theorem C9_all_nan_selects_index0 (data : Container) (method stat : String)
    (fore statR statS : Arr3) (i k : ℕ)
    (hf : data (method ++ "_" ++ "fore" ++ "_rmse") = some fore)
    (hr : data (method ++ "_" ++ stat ++ "_rmse") = some statR)
    (hs : data (method ++ "_" ++ stat ++ "_spread") = some statS)
    (hR0 : statR.d0 = fore.d0) (hR1 : statR.d1 = fore.d1) (hR2 : statR.d2 = fore.d2)
    (hS0 : statS.d0 = fore.d0) (hS1 : statS.d1 = fore.d1) (hS2 : statS.d2 = fore.d2)
    (hd1 : 0 < fore.d1) (hi : i < fore.d0) (hk : k < fore.d2)
    (hnan : ∀ n, n < fore.d1 → fore.val i n k = PyF.nan) :
    ∃ r s, find_optimal_values method stat data = some (r, s) ∧
      r.val k i = statR.val i 0 k ∧ s.val k i = statS.val i 0 k := by
  have hm : isFirstArgmin fore i k 0 :=
    ⟨hd1, fun n hn => by rw [hnan 0 hd1, hnan n hn],
     fun n hn => absurd hn (Nat.not_lt_zero n)⟩
  rcases find_optimal_values_spec data method stat fore statR statS hf hr hs
    hR0 hR1 hR2 hS0 hS1 hS2 hd1 with ⟨r, s, hfind, _, _, _, _, hval⟩
  exact ⟨r, s, hfind, (hval i k 0 hi hk hm).1, (hval i k 0 hi hk hm).2⟩

/-- Witness for C9 at the all-NaN example container: the cell receives the
index-0 statistic values `0.7` and `0.6`. -/
theorem C9_all_nan_selects_index0_witness :
    ((∀ n, n < exForeNan.d1 → exForeNan.val 0 n 0 = PyF.nan) ∧ 0 < exForeNan.d1) ∧
    ∃ r s, find_optimal_values "etks_classic" "post" exCNan = some (r, s) ∧
      r.val 0 0 = exStatRNan.val 0 0 0 ∧ s.val 0 0 = exStatSNan.val 0 0 0 :=
  ⟨⟨by decide, by decide⟩,
   C9_all_nan_selects_index0 exCNan "etks_classic" "post" exForeNan exStatRNan exStatSNan
     0 0 rfl rfl rfl rfl rfl rfl rfl rfl rfl (by decide) (by decide) (by decide) (by decide)⟩

/-- C10 (implicit): the versus-shift and versus-tanl scripts' versions of
`find_optimal_values` read the module-level file handle `f` and never the
`data` parameter, so their result is independent of `data`; the versus-lag
version does read its parameter, witnessed by two containers on which it
differs. -/
theorem C10_shift_tanl_ignore_data (f : Container) (method stat : String)
    (data1 data2 : Container) :
    find_optimal_values_shift f method stat data1 =
      find_optimal_values_shift f method stat data2 ∧
    find_optimal_values_tanl f method stat data1 =
      find_optimal_values_tanl f method stat data2 ∧
    find_optimal_values "etks_classic" "post" exC ≠
      find_optimal_values "etks_classic" "post" emptyC := by
  refine ⟨rfl, rfl, ?_⟩
  intro hcon
  have hsome : ∃ r s, find_optimal_values "etks_classic" "post" exC = some (r, s) :=
    ⟨_, _, rfl⟩
  rcases hsome with ⟨r, s, h2⟩
  have hnone : find_optimal_values "etks_classic" "post" emptyC = none := rfl
  rw [h2, hnone] at hcon
  exact Option.noConfusion hcon
